import Mathlib

/-!
# Verification of the seqhasher record-processing pipeline

A shallow embedding of the seqhasher program (Go). Byte sequences are
modelled as `List Nat` (each element a byte value `< 256`), strings as
`List Char`. The Go standard-library routines the program calls on its
data path (`bytes.Fields`/`bytes.Join`, `bytes.ToUpper`, `hex.EncodeToString`,
`fmt.Sprintf "%016x"`, `strings.Split`, `strings.TrimSpace`,
`strings.Join`, `filepath.Base`) are embedded faithfully at the byte/rune
level.  The cryptographic hash primitives themselves (sha1, sha3-512, md5,
xxhash64, cityhash128, murmur3-128, nthash, blake3) are external libraries
treated as black boxes: they are parameters (`HashPrims`) constrained only
by their fixed output sizes, exactly as the program relies on them.
The Unicode simple upper-case table (`unicode.ToUpper`) is likewise a
parameter (`GoUpper`) pinned to the concrete table on ASCII and Latin-1,
the ranges the proofs and counterexamples touch.
-/

namespace Seqhasher

/-! ## UTF-8 layer

Go's `bytes.Fields`, `bytes.ToUpper` (non-ASCII path) and `bytes.Map`
iterate over a byte slice rune by rune with `utf8.DecodeRune`: an invalid
encoding decodes to `RuneError` (U+FFFD) with width 1.  `goRunes` performs
exactly this iteration, returning each decoded rune together with the raw
bytes it consumed. The validity windows are those of Go's
`utf8.acceptRanges` (rejecting overlong encodings, surrogates and
values above U+10FFFF). -/

/-- One step of Go's `utf8.DecodeRune` on byte `b` followed by `rest`:
returns the decoded rune and how many bytes of `rest` belong to it
(an invalid encoding yields `(0xFFFD, 0)`, i.e. RuneError of width 1).
The validity windows for the second byte match Go's `utf8.acceptRanges`,
which rule out overlong encodings, surrogates and values above U+10FFFF. -/
def goDecode (b : Nat) (rest : List Nat) : Nat × Nat :=
  if b < 0x80 then (b, 0)
  else if b < 0xC2 then (0xFFFD, 0)
  else if b ≤ 0xDF then
    match rest with
    | b1 :: _ =>
      if 0x80 ≤ b1 ∧ b1 ≤ 0xBF then ((b - 0xC0) * 0x40 + (b1 - 0x80), 1)
      else (0xFFFD, 0)
    | [] => (0xFFFD, 0)
  else if b ≤ 0xEF then
    match rest with
    | b1 :: b2 :: _ =>
      if (if b = 0xE0 then 0xA0 ≤ b1 ∧ b1 ≤ 0xBF
          else if b = 0xED then 0x80 ≤ b1 ∧ b1 ≤ 0x9F
          else 0x80 ≤ b1 ∧ b1 ≤ 0xBF) ∧ 0x80 ≤ b2 ∧ b2 ≤ 0xBF then
        ((b - 0xE0) * 0x1000 + (b1 - 0x80) * 0x40 + (b2 - 0x80), 2)
      else (0xFFFD, 0)
    | _ => (0xFFFD, 0)
  else if b ≤ 0xF4 then
    match rest with
    | b1 :: b2 :: b3 :: _ =>
      if (if b = 0xF0 then 0x90 ≤ b1 ∧ b1 ≤ 0xBF
          else if b = 0xF4 then 0x80 ≤ b1 ∧ b1 ≤ 0x8F
          else 0x80 ≤ b1 ∧ b1 ≤ 0xBF) ∧ (0x80 ≤ b2 ∧ b2 ≤ 0xBF) ∧
          (0x80 ≤ b3 ∧ b3 ≤ 0xBF) then
        ((b - 0xF0) * 0x40000 + (b1 - 0x80) * 0x1000 + (b2 - 0x80) * 0x40 + (b3 - 0x80), 3)
      else (0xFFFD, 0)
    | _ => (0xFFFD, 0)
  else (0xFFFD, 0)

/-- Fuel-driven worker for the decode loop; the fuel only serves
structural termination and is irrelevant whenever it is at least the
list length. -/
def goRunesF : Nat → List Nat → List (Nat × List Nat)
  | _, [] => []
  | 0, _ :: _ => []
  | fuel + 1, b :: rest =>
    let d := goDecode b rest
    (d.1, b :: rest.take d.2) :: goRunesF fuel (rest.drop d.2)

/-- Decode a byte stream as Go's `utf8.DecodeRune` loop does: each step
yields the decoded rune and the raw bytes it consumed (an invalid byte
yields `(0xFFFD, [b])` and decoding restarts at the next byte). -/
def goRunes (s : List Nat) : List (Nat × List Nat) := goRunesF s.length s

/-- A Unicode scalar value: in range and not a surrogate.  These are the
runes `utf8.EncodeRune` encodes losslessly. -/
def WfRune (r : Nat) : Prop := r < 0x110000 ∧ ¬(0xD800 ≤ r ∧ r ≤ 0xDFFF)

instance (r : Nat) : Decidable (WfRune r) := by unfold WfRune; infer_instance

/-- Go `utf8.AppendRune`: encode a rune as UTF-8 bytes (an invalid rune is
replaced by the encoding of U+FFFD). -/
def encodeRune (r : Nat) : List Nat :=
  if r < 0x80 then [r]
  else if r < 0x800 then [0xC0 + r / 0x40, 0x80 + r % 0x40]
  else if 0xD800 ≤ r ∧ r ≤ 0xDFFF then [0xEF, 0xBF, 0xBD]
  else if r < 0x10000 then
    [0xE0 + r / 0x1000, 0x80 + r / 0x40 % 0x40, 0x80 + r % 0x40]
  else if r ≤ 0x10FFFF then
    [0xF0 + r / 0x40000, 0x80 + r / 0x1000 % 0x40, 0x80 + r / 0x40 % 0x40, 0x80 + r % 0x40]
  else [0xEF, 0xBF, 0xBD]

/-- Encode a list of runes to a UTF-8 byte stream. -/
def encodeRunes (rs : List Nat) : List Nat := (rs.map encodeRune).flatten

/-- Go `unicode.IsSpace`: the White_Space property.  In Latin-1 these are
tab, newline, vertical tab, form feed, carriage return, space, next-line
(U+0085) and no-break space (U+00A0); beyond Latin-1 the table contains
U+1680, U+2000..U+200A, U+2028, U+2029, U+202F, U+205F and U+3000. -/
def isGoSpace (r : Nat) : Bool :=
  (0x09 ≤ r ∧ r ≤ 0x0D) ∨ r = 0x20 ∨ r = 0x85 ∨ r = 0xA0 ∨
    r = 0x1680 ∨ (0x2000 ≤ r ∧ r ≤ 0x200A) ∨
    r = 0x2028 ∨ r = 0x2029 ∨ r = 0x202F ∨ r = 0x205F ∨ r = 0x3000

/-- `bytes.Join(bytes.Fields(s), nil)` — concatenating the
whitespace-delimited fields of `s` is exactly dropping every
whitespace rune (an invalid byte decodes to U+FFFD, which is not
whitespace, and is kept).  `bytes.Fields` uses a byte-wise ASCII fast
path when every byte is below 0x80; on that domain every byte is its own
rune and `unicode.IsSpace` coincides with the ASCII space table, so the
uniform rune-wise formulation covers both paths. -/
def bytesJoinFields (s : List Nat) : List Nat :=
  (((goRunes s).filter fun p => !isGoSpace p.1).map (·.2)).flatten

/-- Byte-wise ASCII upper-casing, the fast path of `bytes.ToUpper`. -/
def asciiUpper (b : Nat) : Nat := if 0x61 ≤ b ∧ b ≤ 0x7A then b - 0x20 else b

/-- Go `bytes.Map(mapping, s)`: decode runes (invalid bytes become
U+FFFD), apply the mapping, re-encode. -/
def bytesMap (uc : Nat → Nat) (s : List Nat) : List Nat :=
  ((goRunes s).map fun p => encodeRune (uc p.1)).flatten

/-- Go `bytes.ToUpper`: byte-wise ASCII upper-casing when the slice is
all-ASCII, otherwise rune-wise `bytes.Map(unicode.ToUpper, s)`.
`uc` stands for the external `unicode.ToUpper` table. -/
def bytesToUpper (uc : Nat → Nat) (s : List Nat) : List Nat :=
  if s.all (· < 0x80) then s.map asciiUpper else bytesMap uc s

/-- The `unicode.ToUpper` simple case-mapping restricted to Latin-1:
`à`..`þ` (minus `÷`) map down by 0x20, `µ` maps to U+039C, `ÿ` maps to
U+0178, everything else in 0x80..0xFF is caseless. -/
def goUpperLatin1 (r : Nat) : Nat :=
  if r = 0xB5 then 0x39C
  else if r = 0xFF then 0x178
  else if 0xE0 ≤ r ∧ r ≤ 0xFE ∧ r ≠ 0xF7 then r - 0x20
  else r

/-- Facts about Go's `unicode.ToUpper` that the program relies on: it is
the ASCII upper-casing on ASCII, the Latin-1 table on Latin-1, it is
idempotent, it maps scalar values to scalar values, and it never maps a
non-whitespace rune to a whitespace rune. -/
structure GoUpper (uc : Nat → Nat) : Prop where
  ascii : ∀ r, r < 0x80 → uc r = asciiUpper r
  latin1 : ∀ r, 0x80 ≤ r → r ≤ 0xFF → uc r = goUpperLatin1 r
  idem : ∀ r, uc (uc r) = uc r
  wf : ∀ r, WfRune r → WfRune (uc r)
  nospace : ∀ r, isGoSpace r = false → isGoSpace (uc r) = false

/-- A concrete model of `unicode.ToUpper`: exact on ASCII and Latin-1
(the ranges exercised by the program's inputs in this development),
identity beyond. -/
def ucModel (r : Nat) : Nat :=
  if r < 0x80 then asciiUpper r else if r ≤ 0xFF then goUpperLatin1 r else r

/-- The v1.1.1 sequence normalisation (`processSequences`): strip all
Unicode whitespace (`bytes.Join(bytes.Fields(seq), nil)`), then
upper-case via `bytes.ToUpper` unless case-sensitive hashing is on. -/
def normalizeSeq (uc : Nat → Nat) (caseSensitive : Bool) (s : List Nat) : List Nat :=
  let stripped := bytesJoinFields s
  if caseSensitive then stripped else bytesToUpper uc stripped

/-! ## Hex encoding

`encoding/hex.EncodeToString` and `fmt.Sprintf("%016x", v)` for a
`uint64` value, the two digest renderings the program uses. -/

/-- A lowercase hexadecimal digit. -/
def hexDigit (d : Nat) : Char :=
  if d < 10 then Char.ofNat (0x30 + d) else Char.ofNat (0x61 + (d - 10))

/-- `fmt.Sprintf("%016x", v)` for `v : uint64`: sixteen lowercase hex
digits, zero-padded (a `uint64` has at most sixteen). -/
def hexPad16 (v : Nat) : List Char :=
  (List.range 16).map fun i => hexDigit (v / 16 ^ (15 - i) % 16)

/-- `hex.EncodeToString`: two lowercase hex digits per byte, high nibble
first. -/
def hexEncodeBytes (bs : List Nat) : List Char :=
  bs.foldr (fun b acc => hexDigit (b / 16) :: hexDigit (b % 16) :: acc) []

/-- Character class of the output encoding. -/
def lowercaseHexChar (c : Char) : Bool :=
  ('0' ≤ c ∧ c ≤ '9') ∨ ('a' ≤ c ∧ c ≤ 'f')

/-! ## Hash registry (`getHashFunc`)

The hash algorithms themselves are external libraries
(`crypto/sha1`, `golang.org/x/crypto/sha3`, `crypto/md5`,
`github.com/cespare/xxhash/v2`, `github.com/go-faster/city`,
`github.com/spaolacci/murmur3`, `github.com/will-rowe/nthash`,
`github.com/zeebo/blake3`).  They are modelled as black-box pure
functions with the output sizes the program's formatting relies on;
a 128-bit hash is represented by its two 64-bit halves exactly as the
Go API exposes them (`city.Hash128` returns `{High, Low}`,
`murmur3.Sum128` returns `(h1, h2)`). -/

structure HashPrims where
  sha1Sum : List Nat → List Nat
  sha3Sum512 : List Nat → List Nat
  md5Sum : List Nat → List Nat
  blake3Sum256 : List Nat → List Nat
  xxhashSum64 : List Nat → Nat
  cityHash128High : List Nat → Nat
  cityHash128Low : List Nat → Nat
  murmur3Sum128Fst : List Nat → Nat
  murmur3Sum128Snd : List Nat → Nat
  nthashNewHasherErr : List Nat → Nat → Bool
  nthashNext : List Nat → Nat → Bool → Nat

/-- The output contracts of the hash libraries: fixed digest sizes
(sha1 20 bytes, sha3-512 64 bytes, md5 16 bytes, blake3-256 32 bytes,
the others 64-bit words), and `nthash.NewHasher(&data, k)` failing
exactly when the sequence is shorter than the window `k`. -/
structure HashPrimsOk (P : HashPrims) : Prop where
  sha1_len : ∀ d, (P.sha1Sum d).length = 20
  sha3_len : ∀ d, (P.sha3Sum512 d).length = 64
  md5_len : ∀ d, (P.md5Sum d).length = 16
  blake3_len : ∀ d, (P.blake3Sum256 d).length = 32
  sha1_bytes : ∀ d, ∀ b ∈ P.sha1Sum d, b < 256
  sha3_bytes : ∀ d, ∀ b ∈ P.sha3Sum512 d, b < 256
  md5_bytes : ∀ d, ∀ b ∈ P.md5Sum d, b < 256
  blake3_bytes : ∀ d, ∀ b ∈ P.blake3Sum256 d, b < 256
  nthash_err : ∀ d k, P.nthashNewHasherErr d k = decide (d.length < k)

/-- Log line written by the hash wrapper on empty input. -/
def emptyHashWarning : List Char :=
  "Error: Empty DNA sequence provided, resulting in an empty hash.".data

/-- Log line written when `nthash.NewHasher` fails. -/
def ntHashCreateWarning : List Char := "Error creating ntHash hasher: ".data

/-- `getHashFunc` (v1.1.1): returns the hashing closure for a hash-type
name.  The closure first applies the empty-input policy (warn, return
the empty string), then dispatches on the name; an unrecognised name
falls through to the SHA-1 default branch.  The second component
collects the `log.Printf` calls the closure makes. -/
def getHashFunc (P : HashPrims) (hashType : List Char) (data : List Nat) :
    List Char × List (List Char) :=
  if data.length = 0 then ([], [emptyHashWarning])
  else if hashType = "sha1".data then (hexEncodeBytes (P.sha1Sum data), [])
  else if hashType = "sha3".data then (hexEncodeBytes (P.sha3Sum512 data), [])
  else if hashType = "md5".data then (hexEncodeBytes (P.md5Sum data), [])
  else if hashType = "xxhash".data then (hexPad16 (P.xxhashSum64 data), [])
  else if hashType = "cityhash".data then
    (hexPad16 (P.cityHash128High data) ++ hexPad16 (P.cityHash128Low data), [])
  else if hashType = "murmur3".data then
    (hexPad16 (P.murmur3Sum128Fst data) ++ hexPad16 (P.murmur3Sum128Snd data), [])
  else if hashType = "nthash".data then
    if P.nthashNewHasherErr data data.length then ([], [ntHashCreateWarning])
    else (hexPad16 (P.nthashNext data data.length false), [])
  else if hashType = "blake3".data then (hexEncodeBytes (P.blake3Sum256 data), [])
  else (hexEncodeBytes (P.sha1Sum data), [])

/-! ## Flag validation (`supportedHashTypes`, `isValidHashType`,
the hash-list part of `parseFlags`) -/

/-- The supported hash-type names (v1.1.1). -/
def supportedHashTypes : List (List Char) :=
  ["sha1".data, "sha3".data, "md5".data, "xxhash".data, "cityhash".data,
    "murmur3".data, "nthash".data, "blake3".data]

/-- Linear scan over `supportedHashTypes`. -/
def isValidHashType (hashType : List Char) : Bool :=
  decide (hashType ∈ supportedHashTypes)

/-- `unicode.IsSpace` applied to a character, as `strings.TrimSpace`
uses it. -/
def isSpaceChar (c : Char) : Bool := isGoSpace c.toNat

/-- Go `strings.TrimSpace`: drop leading and trailing Unicode
whitespace. -/
def trimSpace (s : List Char) : List Char :=
  ((s.dropWhile isSpaceChar).reverse.dropWhile isSpaceChar).reverse

/-- The error text of `parseFlags` for an invalid hash type: it reports
the offending (untrimmed) name and joins the full supported list with
`", "`. -/
def invalidHashMessage (ht : List Char) : List Char :=
  "Invalid hash type: ".data ++ ht ++ ". Supported types are: ".data ++
    List.intercalate ", ".data supportedHashTypes

/-- The hash-type handling of `parseFlags` (v1.1.1): split the `--hash`
argument on commas, reject (with `invalidHashMessage`) at the first
entry whose *trimmed* form is not supported, and otherwise keep the
entries as split — untrimmed. -/
def parseHashTypes (hashTypesString : List Char) : Except (List Char) (List (List Char)) :=
  match (hashTypesString.splitOn ',').find? (fun ht => !isValidHashType (trimSpace ht)) with
  | some ht => .error (invalidHashMessage ht)
  | none => .ok (hashTypesString.splitOn ',')

/-! ## Records, configuration and the per-record pipeline
(`processSequences`, v1.1.1) -/

/-- A parsed sequence record as the external `fastx` reader delivers it:
`name` is `record.Name`, `seq` is `record.Seq.Seq`, `qual` is
`record.Seq.Qual` (empty for FASTA-origin records). -/
structure Record where
  name : List Char
  seq : List Nat
  qual : List Nat

/-- The flag snapshot (`config` struct). -/
structure Config where
  headersOnly : Bool
  hashTypes : List (List Char)
  noFileName : Bool
  caseSensitive : Bool
  inputFileName : List Char
  outputFileName : List Char
  nameOverride : List Char

/-- Bytes viewed as output characters. -/
def byteChars (s : List Nat) : List Char := s.map fun b => Char.ofNat b

/-- Header construction: `hashedSeq;name`, or
`inputFileName;hashedSeq;name` when the file name is included. -/
def composeHeader (inputFileName : List Char) (noFileName : Bool)
    (hashedSeq : List Char) (name : List Char) : List Char :=
  if noFileName then hashedSeq ++ ";".data ++ name
  else inputFileName ++ ";".data ++ hashedSeq ++ ";".data ++ name

/-- The digests of one record: one per configured hash type, in
configured order, over the same normalized bytes. -/
def hashedSeqsOf (P : HashPrims) (hashTypes : List (List Char)) (data : List Nat) :
    List (List Char) :=
  hashTypes.map fun ht => (getHashFunc P ht data).1

/-- Output emission for one record: bare header line in headers-only
mode, otherwise `>` + header + newline + normalized sequence + newline.
(The record's quality bytes are not part of the emission.) -/
def emitRecord (headersOnly : Bool) (header : List Char) (normSeq : List Nat) : List Char :=
  if headersOnly then header ++ "\n".data
  else ">".data ++ header ++ "\n".data ++ byteChars normSeq ++ "\n".data

/-- The body of the per-record loop of `processSequences` (v1.1.1):
normalize, hash with every configured algorithm, join digests with
`;`, compose the header, emit. -/
def processRecord (P : HashPrims) (uc : Nat → Nat) (cfg : Config)
    (resolvedName : List Char) (noFN : Bool) (r : Record) : List Char :=
  let s := normalizeSeq uc cfg.caseSensitive r.seq
  let hashedSeq := List.intercalate ";".data (hashedSeqsOf P cfg.hashTypes s)
  let header := composeHeader resolvedName noFN hashedSeq r.name
  emitRecord cfg.headersOnly header s

/-- The source-name resolution at the top of `processSequences`
(v1.1.1): a non-empty `--name` override is used verbatim; otherwise for
stdin (`-`) the file-name field is dropped from headers
(`cfg.noFileName` is forced); otherwise the configured input file name
is used. Returns (resolved name, effective noFileName). -/
def resolveName (cfg : Config) : List Char × Bool :=
  if cfg.nameOverride ≠ [] then (cfg.nameOverride, cfg.noFileName)
  else if cfg.inputFileName = "-".data then (cfg.inputFileName, true)
  else (cfg.inputFileName, cfg.noFileName)

/-- The read loop of `processSequences` (v1.1.1) over the stream of
`reader.Read()` results: end-of-list is `io.EOF`; a read error stops
the loop immediately and is returned as the function's error; an `ok`
record is processed and emitted.  Result: (bytes written before
returning, the error if any). -/
def processLoop (P : HashPrims) (uc : Nat → Nat) (cfg : Config)
    (resolvedName : List Char) (noFN : Bool) :
    List (Except (List Char) Record) → List Char × Option (List Char)
  | [] => ([], none)
  | .error e :: _ => ([], some ("Error reading record: ".data ++ e))
  | .ok r :: rest =>
    let out := processRecord P uc cfg resolvedName noFN r
    let tail := processLoop P uc cfg resolvedName noFN rest
    (out ++ tail.1, tail.2)

/-- `processSequences` (v1.1.1): a failure to create the `fastx` reader
is returned before any record is touched; otherwise resolve the source
name once and run the loop. -/
def processSequences (P : HashPrims) (uc : Nat → Nat)
    (readerErr : Option (List Char)) (cfg : Config)
    (stream : List (Except (List Char) Record)) : List Char × Option (List Char) :=
  match readerErr with
  | some e => ([], some ("Failed to create reader: ".data ++ e))
  | none =>
    let rn := resolveName cfg
    processLoop P uc cfg rn.1 rn.2 stream

/-- The run-level ordering of v1.1.1's `run()`: `parseFlags` validates
the hash-type list first and its error aborts the run before the reader
is even opened; only a valid list reaches `processSequences`. -/
def runPipeline (P : HashPrims) (uc : Nat → Nat) (cfg : Config)
    (hashTypesString : List Char) (readerErr : Option (List Char))
    (stream : List (Except (List Char) Record)) : List Char × Option (List Char) :=
  match parseHashTypes hashTypesString with
  | .error m => ([], some m)
  | .ok ts => processSequences P uc readerErr { cfg with hashTypes := ts } stream

/-! ## The legacy `rechimizer` tool's source-name resolution -/

/-- Go `filepath.Base` (unix): strip trailing slashes, then keep
everything after the last slash; empty path gives `"."`, all-slash
paths give `"/"`.  (Working on the reversed list: drop leading slashes
of the reversal, then take up to the next slash.) -/
def filepathBase (path : List Char) : List Char :=
  if path = [] then ".".data
  else if (path.reverse.dropWhile (· = '/')).reverse = [] then "/".data
  else ((path.reverse.dropWhile (· = '/')).takeWhile (· ≠ '/')).reverse

/-- The source-name resolution in `rechimizer.go`'s `main`: for stdin
(`-`) use the literal `"stdin"` unless `--name` overrides it; for a
file use the override if set, else the base file name. -/
def rechimizerSourceName (nameFlag : List Char) (inputFileName : List Char) : List Char :=
  if inputFileName = "-".data then
    if nameFlag = [] then "stdin".data else nameFlag
  else
    if nameFlag ≠ [] then nameFlag else filepathBase inputFileName

/-! ## Concrete instances used by witnesses -/

/-- A trivial hash-primitive instance satisfying the size contracts
(digests of all zero bytes / the zero word). -/
def prims0 : HashPrims where
  sha1Sum _ := List.replicate 20 0
  sha3Sum512 _ := List.replicate 64 0
  md5Sum _ := List.replicate 16 0
  blake3Sum256 _ := List.replicate 32 0
  xxhashSum64 _ := 0
  cityHash128High _ := 0
  cityHash128Low _ := 0
  murmur3Sum128Fst _ := 0
  murmur3Sum128Snd _ := 0
  nthashNewHasherErr d k := decide (d.length < k)
  nthashNext _ _ _ := 0

/-- The FASTQ record of `TestProcessFASTQSequences`:
`@seq1`, sequence `ACTG`, quality `DFGH`. -/
def fastqRecord : Record where
  name := "seq1".data
  seq := [0x41, 0x43, 0x54, 0x47]
  qual := [0x44, 0x46, 0x47, 0x48]

/-- The configuration of `TestProcessFASTQSequences` (basic case). -/
def fastqConfig : Config where
  headersOnly := false
  hashTypes := ["sha1".data]
  noFileName := false
  caseSensitive := false
  inputFileName := "test.fastq".data
  outputFileName := []
  nameOverride := []

/-- A default-flag configuration reading from stdin (`-`), with the
source-name field *not* omitted by the user. -/
def stdinConfig : Config where
  headersOnly := true
  hashTypes := ["sha1".data]
  noFileName := false
  caseSensitive := false
  inputFileName := "-".data
  outputFileName := []
  nameOverride := []

/-- A headers-only, no-file-name configuration over a file. -/
def fileConfig : Config where
  headersOnly := true
  hashTypes := ["sha1".data]
  noFileName := true
  caseSensitive := false
  inputFileName := "test.fasta".data
  outputFileName := []
  nameOverride := []

/-- Record `seq1` with sequence `AAAA`. -/
def recA : Record where
  name := "seq1".data
  seq := [0x41, 0x41, 0x41, 0x41]
  qual := []

/-- Record `seq2` with sequence `ACTG`. -/
def recB : Record where
  name := "seq2".data
  seq := [0x41, 0x43, 0x54, 0x47]
  qual := []

/-! ## Lemmas: UTF-8 decode/encode round trip -/

theorem goDecode_ascii (b : Nat) (rest : List Nat) (h : b < 0x80) :
    goDecode b rest = (b, 0) := by
  unfold goDecode
  rw [if_pos h]

theorem goDecode_two (b0 b1 : Nat) (rest : List Nat)
    (h1 : 0xC2 ≤ b0) (h2 : b0 ≤ 0xDF) (h3 : 0x80 ≤ b1) (h4 : b1 ≤ 0xBF) :
    goDecode b0 (b1 :: rest) = ((b0 - 0xC0) * 0x40 + (b1 - 0x80), 1) := by
  unfold goDecode
  rw [if_neg (by omega), if_neg (by omega), if_pos h2]
  exact if_pos ⟨h3, h4⟩

theorem goDecode_three (b0 b1 b2 : Nat) (rest : List Nat)
    (h1 : 0xE0 ≤ b0) (h2 : b0 ≤ 0xEF)
    (hw : if b0 = 0xE0 then 0xA0 ≤ b1 ∧ b1 ≤ 0xBF
          else if b0 = 0xED then 0x80 ≤ b1 ∧ b1 ≤ 0x9F
          else 0x80 ≤ b1 ∧ b1 ≤ 0xBF)
    (h5 : 0x80 ≤ b2) (h6 : b2 ≤ 0xBF) :
    goDecode b0 (b1 :: b2 :: rest) =
      ((b0 - 0xE0) * 0x1000 + (b1 - 0x80) * 0x40 + (b2 - 0x80), 2) := by
  unfold goDecode
  rw [if_neg (by omega), if_neg (by omega), if_neg (by omega), if_pos h2]
  exact if_pos ⟨hw, h5, h6⟩

theorem goDecode_four (b0 b1 b2 b3 : Nat) (rest : List Nat)
    (h1 : 0xF0 ≤ b0) (h2 : b0 ≤ 0xF4)
    (hw : if b0 = 0xF0 then 0x90 ≤ b1 ∧ b1 ≤ 0xBF
          else if b0 = 0xF4 then 0x80 ≤ b1 ∧ b1 ≤ 0x8F
          else 0x80 ≤ b1 ∧ b1 ≤ 0xBF)
    (h5 : 0x80 ≤ b2) (h6 : b2 ≤ 0xBF) (h7 : 0x80 ≤ b3) (h8 : b3 ≤ 0xBF) :
    goDecode b0 (b1 :: b2 :: b3 :: rest) =
      ((b0 - 0xF0) * 0x40000 + (b1 - 0x80) * 0x1000 + (b2 - 0x80) * 0x40 + (b3 - 0x80), 3) := by
  unfold goDecode
  rw [if_neg (by omega), if_neg (by omega), if_neg (by omega), if_neg (by omega), if_pos h2]
  exact if_pos ⟨hw, ⟨h5, h6⟩, h7, h8⟩

theorem encodeRune_eq_one (r : Nat) (h : r < 0x80) : encodeRune r = [r] := by
  unfold encodeRune
  rw [if_pos h]

theorem encodeRune_eq_two (r : Nat) (h1 : 0x80 ≤ r) (h2 : r < 0x800) :
    encodeRune r = [0xC0 + r / 0x40, 0x80 + r % 0x40] := by
  unfold encodeRune
  rw [if_neg (by omega), if_pos h2]

theorem encodeRune_eq_three (r : Nat) (h1 : 0x800 ≤ r) (h2 : r < 0x10000)
    (h3 : ¬(0xD800 ≤ r ∧ r ≤ 0xDFFF)) :
    encodeRune r = [0xE0 + r / 0x1000, 0x80 + r / 0x40 % 0x40, 0x80 + r % 0x40] := by
  unfold encodeRune
  rw [if_neg (by omega), if_neg (by omega), if_neg h3, if_pos h2]

theorem encodeRune_eq_four (r : Nat) (h1 : 0x10000 ≤ r) (h2 : r ≤ 0x10FFFF) :
    encodeRune r =
      [0xF0 + r / 0x40000, 0x80 + r / 0x1000 % 0x40, 0x80 + r / 0x40 % 0x40,
        0x80 + r % 0x40] := by
  unfold encodeRune
  rw [if_neg (by omega), if_neg (by omega), if_neg (by omega), if_neg (by omega), if_pos h2]

theorem goRunesF_irrel (f1 : Nat) : ∀ (f2 : Nat) (s : List Nat),
    s.length ≤ f1 → s.length ≤ f2 → goRunesF f1 s = goRunesF f2 s := by
  induction f1 with
  | zero =>
    intro f2 s h1 _
    have : s = [] := List.eq_nil_of_length_eq_zero (by omega)
    subst this
    cases f2 <;> rfl
  | succ f1 ih =>
    intro f2 s h1 h2
    match s, f2 with
    | [], f2 => cases f2 <;> rfl
    | b :: rest, 0 => simp at h2
    | b :: rest, f2 + 1 =>
      show _ :: goRunesF f1 (rest.drop (goDecode b rest).2) =
        _ :: goRunesF f2 (rest.drop (goDecode b rest).2)
      have hdl : (rest.drop (goDecode b rest).2).length ≤ rest.length := by
        rw [List.length_drop]
        omega
      simp only [List.length_cons] at h1 h2
      rw [ih f2 (rest.drop (goDecode b rest).2) (by omega) (by omega)]

theorem goRunesF_congr (fuel : Nat) (s : List Nat) (h : s.length ≤ fuel) :
    goRunesF fuel s = goRunesF s.length s :=
  goRunesF_irrel fuel s.length s h (le_refl _)

theorem goRunes_nil : goRunes [] = [] := rfl

theorem goRunes_cons (b : Nat) (rest : List Nat) :
    goRunes (b :: rest) =
      ((goDecode b rest).1, b :: rest.take (goDecode b rest).2) ::
        goRunes (rest.drop (goDecode b rest).2) := by
  show goRunesF (b :: rest).length (b :: rest) = _
  rw [List.length_cons]
  show _ :: goRunesF rest.length (rest.drop (goDecode b rest).2) = _
  rw [goRunesF_congr rest.length (rest.drop (goDecode b rest).2)
    (by rw [List.length_drop]; omega)]
  rfl

/-- Decoding is a left inverse of encoding: a well-formed rune's encoding
decodes to that rune, and decoding then continues after it. -/
theorem goRunes_encode_cons (r : Nat) (h : WfRune r) (t : List Nat) :
    goRunes (encodeRune r ++ t) = (r, encodeRune r) :: goRunes t := by
  obtain ⟨hlt, hsur⟩ := h
  by_cases h1 : r < 0x80
  · rw [encodeRune_eq_one r h1]
    rw [List.cons_append, List.nil_append, goRunes_cons, goDecode_ascii r t h1]
    simp
  · by_cases h2 : r < 0x800
    · rw [encodeRune_eq_two r (by omega) h2]
      rw [List.cons_append, List.cons_append, List.nil_append, goRunes_cons,
        goDecode_two _ _ t (by omega) (by omega) (by omega) (by omega)]
      simp only [List.take, List.drop]
      refine congrArg₂ _ (congrArg₂ _ (by omega) rfl) rfl
    · by_cases h3 : r < 0x10000
      · rw [encodeRune_eq_three r (by omega) h3 hsur]
        rw [List.cons_append, List.cons_append, List.cons_append, List.nil_append,
          goRunes_cons,
          goDecode_three _ _ _ t (by omega) (by omega) (by split_ifs <;> omega)
            (by omega) (by omega)]
        simp only [List.take, List.drop]
        refine congrArg₂ _ (congrArg₂ _ (by omega) rfl) rfl
      · rw [encodeRune_eq_four r (by omega) (by omega)]
        rw [List.cons_append, List.cons_append, List.cons_append, List.cons_append,
          List.nil_append, goRunes_cons,
          goDecode_four _ _ _ _ t (by omega) (by omega) (by split_ifs <;> omega)
            (by omega) (by omega) (by omega) (by omega)]
        simp only [List.take, List.drop]
        refine congrArg₂ _ (congrArg₂ _ (by omega) rfl) rfl

theorem encodeRunes_nil : encodeRunes [] = [] := rfl

theorem encodeRunes_cons (r : Nat) (rs : List Nat) :
    encodeRunes (r :: rs) = encodeRune r ++ encodeRunes rs := by
  unfold encodeRunes
  simp

/-- Decoding an encoded well-formed rune sequence recovers it exactly. -/
theorem goRunes_encodeRunes (rs : List Nat) (h : ∀ r ∈ rs, WfRune r) :
    goRunes (encodeRunes rs) = rs.map fun r => (r, encodeRune r) := by
  induction rs with
  | nil => simp [encodeRunes_nil, goRunes_nil]
  | cons r rs ih =>
    rw [encodeRunes_cons, goRunes_encode_cons r (h r (by simp)) _]
    simp only [List.map_cons, List.cons.injEq, true_and]
    exact ih fun x hx => h x (by simp [hx])

/-! ## Lemmas: whitespace stripping and upper-casing on rune streams -/

/-- On an encoded rune stream, `bytes.Join(bytes.Fields(s), nil)` drops
exactly the whitespace runes and concatenates the remaining fragments in
order. -/
theorem bytesJoinFields_encodeRunes (rs : List Nat) (h : ∀ r ∈ rs, WfRune r) :
    bytesJoinFields (encodeRunes rs) = encodeRunes (rs.filter fun r => !isGoSpace r) := by
  unfold bytesJoinFields
  rw [goRunes_encodeRunes rs h]
  rw [List.filter_map, List.map_map]
  unfold encodeRunes
  congr 1

/-- On an encoded rune stream, `bytes.Map` is rune-wise mapping. -/
theorem bytesMap_encodeRunes (uc : Nat → Nat) (rs : List Nat) (h : ∀ r ∈ rs, WfRune r) :
    bytesMap uc (encodeRunes rs) = encodeRunes (rs.map uc) := by
  unfold bytesMap
  rw [goRunes_encodeRunes rs h]
  unfold encodeRunes
  rw [List.map_map, List.map_map]
  rfl

theorem encodeRunes_ascii (rs : List Nat) (h : ∀ r ∈ rs, r < 0x80) :
    encodeRunes rs = rs := by
  induction rs with
  | nil => rfl
  | cons r rs ih =>
    rw [encodeRunes_cons, encodeRune_eq_one r (h r (by simp))]
    rw [ih fun x hx => h x (by simp [hx])]
    rfl

/-- A rune at or above 0x80 contributes a non-ASCII byte to its encoding. -/
theorem encodeRune_nonascii (r : Nat) (h : 0x80 ≤ r) :
    ∃ b ∈ encodeRune r, ¬b < 0x80 := by
  by_cases h2 : r < 0x800
  · rw [encodeRune_eq_two r h h2]
    exact ⟨0xC0 + r / 0x40, by simp, by omega⟩
  · by_cases hs : 0xD800 ≤ r ∧ r ≤ 0xDFFF
    · unfold encodeRune
      rw [if_neg (by omega), if_neg (by omega), if_pos hs]
      exact ⟨0xEF, by simp, by omega⟩
    · by_cases h3 : r < 0x10000
      · rw [encodeRune_eq_three r (by omega) h3 hs]
        exact ⟨0xE0 + r / 0x1000, by simp, by omega⟩
      · by_cases h4 : r ≤ 0x10FFFF
        · rw [encodeRune_eq_four r (by omega) h4]
          exact ⟨0xF0 + r / 0x40000, by simp, by omega⟩
        · unfold encodeRune
          rw [if_neg (by omega), if_neg (by omega), if_neg hs, if_neg (by omega),
            if_neg (by omega)]
          exact ⟨0xEF, by simp, by omega⟩

/-- If every byte of an encoded rune stream is ASCII, every rune is. -/
theorem runes_ascii_of_bytes_ascii (rs : List Nat)
    (h : (encodeRunes rs).all (· < 0x80)) : ∀ r ∈ rs, r < 0x80 := by
  intro r hr
  by_contra hge
  obtain ⟨b, hb, hbge⟩ := encodeRune_nonascii r (by omega)
  have : b ∈ encodeRunes rs := by
    unfold encodeRunes
    rw [List.mem_flatten]
    exact ⟨encodeRune r, List.mem_map_of_mem _ hr, hb⟩
  have := List.all_eq_true.mp h b this
  simp at this
  omega

/-- On an encoded rune stream `bytes.ToUpper` is rune-wise application of
`unicode.ToUpper`, whichever internal path it takes. -/
theorem bytesToUpper_encodeRunes (uc : Nat → Nat) (hu : GoUpper uc)
    (rs : List Nat) (h : ∀ r ∈ rs, WfRune r) :
    bytesToUpper uc (encodeRunes rs) = encodeRunes (rs.map uc) := by
  unfold bytesToUpper
  by_cases hall : (encodeRunes rs).all (· < 0x80)
  · rw [if_pos hall]
    have hascii := runes_ascii_of_bytes_ascii rs hall
    rw [encodeRunes_ascii rs hascii]
    have : rs.map uc = rs.map asciiUpper := by
      apply List.map_congr_left
      intro r hr
      exact hu.ascii r (hascii r hr)
    rw [this]
    rw [encodeRunes_ascii (rs.map asciiUpper)]
    intro x hx
    obtain ⟨r, hr, rfl⟩ := List.mem_map.mp hx
    have := hascii r hr
    unfold asciiUpper
    split <;> omega
  · rw [if_neg hall]
    exact bytesMap_encodeRunes uc rs h

/-- The concrete upper-case model satisfies the `unicode.ToUpper`
contract. -/
theorem ucModel_goUpper : GoUpper ucModel := by
  constructor
  · intro r hr
    unfold ucModel
    rw [if_pos hr]
  · intro r h1 h2
    unfold ucModel
    rw [if_neg (by omega), if_pos h2]
  · intro r
    by_cases h2 : r ≤ 0xFF
    · interval_cases r <;> rfl
    · have he : ucModel r = r := by
        unfold ucModel
        rw [if_neg (by omega), if_neg (by omega)]
      rw [he, he]
  · intro r hr
    by_cases h2 : r ≤ 0xFF
    · interval_cases r <;> exact of_decide_eq_true rfl
    · have he : ucModel r = r := by
        unfold ucModel
        rw [if_neg (by omega), if_neg (by omega)]
      rw [he]
      exact hr
  · intro r h
    by_cases h2 : r ≤ 0xFF
    · interval_cases r <;> revert h <;> decide
    · have he : ucModel r = r := by
        unfold ucModel
        rw [if_neg (by omega), if_neg (by omega)]
      rw [he]
      exact h

/-- Normalization on an encoded rune stream: strip the whitespace runes,
then (unless case-sensitive) upper-case rune-wise. -/
theorem normalizeSeq_encodeRunes (uc : Nat → Nat) (hu : GoUpper uc) (c : Bool)
    (rs : List Nat) (h : ∀ r ∈ rs, WfRune r) :
    normalizeSeq uc c (encodeRunes rs) =
      if c then encodeRunes (rs.filter fun r => !isGoSpace r)
      else encodeRunes ((rs.filter fun r => !isGoSpace r).map uc) := by
  unfold normalizeSeq
  rw [bytesJoinFields_encodeRunes rs h]
  cases c
  · rw [if_neg (by simp), if_neg (by simp)]
    exact bytesToUpper_encodeRunes uc hu _ fun r hr => h r (List.mem_of_mem_filter hr)
  · rw [if_pos rfl, if_pos rfl]

/-! ## Lemmas: hex encoding and digests -/

theorem hexDigit_lowercaseHex (d : Nat) (h : d < 16) :
    lowercaseHexChar (hexDigit d) = true := by
  interval_cases d <;> decide

theorem hexPad16_length (v : Nat) : (hexPad16 v).length = 16 := by
  unfold hexPad16
  rw [List.length_map, List.length_range]

theorem hexPad16_chars (v : Nat) : ∀ c ∈ hexPad16 v, lowercaseHexChar c = true := by
  intro c hc
  obtain ⟨i, _, rfl⟩ := List.mem_map.mp hc
  exact hexDigit_lowercaseHex _ (Nat.mod_lt _ (by omega))

theorem hexEncodeBytes_length (bs : List Nat) :
    (hexEncodeBytes bs).length = 2 * bs.length := by
  induction bs with
  | nil => rfl
  | cons b bs ih =>
    unfold hexEncodeBytes at ih ⊢
    simp only [List.foldr_cons, List.length_cons]
    omega

theorem hexEncodeBytes_chars (bs : List Nat) (h : ∀ b ∈ bs, b < 256) :
    ∀ c ∈ hexEncodeBytes bs, lowercaseHexChar c = true := by
  induction bs with
  | nil => intro c hc; simp [hexEncodeBytes] at hc
  | cons b bs ih =>
    intro c hc
    unfold hexEncodeBytes at hc
    simp only [List.foldr_cons, List.mem_cons] at hc
    rcases hc with rfl | rfl | hc
    · exact hexDigit_lowercaseHex _ (by have := h b (by simp); omega)
    · exact hexDigit_lowercaseHex _ (Nat.mod_lt _ (by omega))
    · exact ih (fun x hx => h x (by simp [hx])) c hc

/-- Every character a hash closure ever outputs is a lowercase hex
digit (the empty-input branch outputs nothing at all). -/
theorem getHashFunc_chars (P : HashPrims) (hP : HashPrimsOk P) (ht : List Char)
    (data : List Nat) : ∀ c ∈ (getHashFunc P ht data).1, lowercaseHexChar c = true := by
  intro c hc
  unfold getHashFunc at hc
  split_ifs at hc <;>
    simp only [List.mem_append, List.not_mem_nil] at hc
  all_goals
    first
    | exact hc.elim
    | exact hexEncodeBytes_chars _ (hP.sha1_bytes data) c hc
    | exact hexEncodeBytes_chars _ (hP.sha3_bytes data) c hc
    | exact hexEncodeBytes_chars _ (hP.md5_bytes data) c hc
    | exact hexEncodeBytes_chars _ (hP.blake3_bytes data) c hc
    | exact hexPad16_chars _ c hc
    | (rcases hc with hc | hc <;> exact hexPad16_chars _ c hc)

/-- A digest never contains a semicolon. -/
theorem getHashFunc_no_semi (P : HashPrims) (hP : HashPrimsOk P) (ht : List Char)
    (data : List Nat) : ';' ∉ (getHashFunc P ht data).1 := by
  intro hmem
  have := getHashFunc_chars P hP ht data ';' hmem
  simp [lowercaseHexChar] at this

/-- A digest never contains a newline. -/
theorem getHashFunc_no_newline (P : HashPrims) (hP : HashPrimsOk P) (ht : List Char)
    (data : List Nat) : '\n' ∉ (getHashFunc P ht data).1 := by
  intro hmem
  have := getHashFunc_chars P hP ht data '\n' hmem
  simp [lowercaseHexChar] at this

/-- The trivial primitive instance satisfies the size contracts. -/
theorem prims0_ok : HashPrimsOk prims0 := by
  constructor <;> intro d <;> simp [prims0]

/-! ## Claim C1 -/

/-- C1 (counterexample): on the byte sequence `ä` (UTF-8 `C3 A4`) with
`caseSensitive = false`, normalization produces `Ä` (`C3 84`) — a Unicode
rune-wise upper-casing — whereas byte-wise upper-casing of the remaining
bytes (ASCII semantics) would leave them unchanged, so the claim's
"byte-wise upper-cases all remaining bytes" fails. -/
theorem C1_counterexample :
    normalizeSeq ucModel false [0xC3, 0xA4] = [0xC3, 0x84] ∧
    (bytesJoinFields [0xC3, 0xA4]).map asciiUpper = [0xC3, 0xA4] ∧
    normalizeSeq ucModel false [0xC3, 0xA4] ≠ (bytesJoinFields [0xC3, 0xA4]).map asciiUpper := by
  decide

/-- C1 (amended): normalization removes every Unicode-whitespace rune
from anywhere in the sequence, concatenating the remaining fragments in
original order with no separator; when `caseSensitive` is false it
upper-cases the remaining content — byte-wise (ASCII) exactly when the
remaining bytes are all ASCII, and Unicode rune-wise otherwise; it
always succeeds, and zero-length input yields zero-length output. -/
theorem C1_normalize_amended (uc : Nat → Nat) (c : Bool)
    (rs s : List Nat) (h : ∀ r ∈ rs, WfRune r)
    (hall : (bytesJoinFields s).all (· < 0x80) = true) :
    bytesJoinFields (encodeRunes rs) = encodeRunes (rs.filter fun r => !isGoSpace r) ∧
    normalizeSeq uc true s = bytesJoinFields s ∧
    normalizeSeq uc false s = (bytesJoinFields s).map asciiUpper ∧
    normalizeSeq uc c [] = [] := by
  refine ⟨bytesJoinFields_encodeRunes rs h, ?_, ?_, ?_⟩
  · simp [normalizeSeq]
  · unfold normalizeSeq bytesToUpper
    rw [if_neg (by simp), if_pos hall]
  · cases c <;>
      simp [normalizeSeq, bytesJoinFields, goRunes_nil, bytesToUpper, bytesMap]

/-- C1 (witness): the amended theorem at the rune stream `A A` (with a
space) and the byte sequence `a ` (lower-case a followed by a space). -/
theorem C1_normalize_amended_witness :
    bytesJoinFields (encodeRunes [0x41, 0x20, 0x41]) =
      encodeRunes ([0x41, 0x20, 0x41].filter fun r => !isGoSpace r) ∧
    normalizeSeq ucModel true [0x61, 0x20] = bytesJoinFields [0x61, 0x20] ∧
    normalizeSeq ucModel false [0x61, 0x20] = (bytesJoinFields [0x61, 0x20]).map asciiUpper ∧
    normalizeSeq ucModel false [] = [] :=
  C1_normalize_amended ucModel false [0x41, 0x20, 0x41] [0x61, 0x20]
    (by decide)
    (by decide)

/-! ## Claim C8 -/

/-- C8 (counterexample): normalization is not idempotent on arbitrary
byte sequences.  On `C2 20 85` the first pass decodes `C2` and `85` as
two invalid one-byte runes (kept) and removes the space `20`; the
result `C2 85` re-decodes as the single rune U+0085 (NEL), which *is*
whitespace, so the second pass removes it. -/
theorem C8_counterexample :
    normalizeSeq ucModel false (normalizeSeq ucModel false [0xC2, 0x20, 0x85]) ≠
      normalizeSeq ucModel false [0xC2, 0x20, 0x85] ∧
    normalizeSeq ucModel false [0xC2, 0x20, 0x85] = [0xC2, 0x85] ∧
    normalizeSeq ucModel false [0xC2, 0x85] = [] := by
  decide

/-- C8 (amended): normalization is idempotent on every byte sequence
that is a well-formed UTF-8 encoding (of scalar values), for both values
of the case-sensitivity flag; on ill-formed input idempotence can fail
(see the counterexample). -/
theorem C8_normalize_idempotent (uc : Nat → Nat) (hu : GoUpper uc) (c : Bool)
    (rs : List Nat) (h : ∀ r ∈ rs, WfRune r) :
    normalizeSeq uc c (normalizeSeq uc c (encodeRunes rs)) =
      normalizeSeq uc c (encodeRunes rs) := by
  rw [normalizeSeq_encodeRunes uc hu c rs h]
  have hwf' : ∀ r ∈ rs.filter (fun r => !isGoSpace r), WfRune r :=
    fun r hr => h r (List.mem_of_mem_filter hr)
  have hns' : ∀ r ∈ rs.filter (fun r => !isGoSpace r), isGoSpace r = false := by
    intro r hr
    have := List.of_mem_filter hr
    simpa using this
  cases c
  · simp only [Bool.false_eq_true, if_false]
    have hwfm : ∀ r ∈ (rs.filter (fun r => !isGoSpace r)).map uc, WfRune r := by
      intro x hx
      obtain ⟨r, hr, rfl⟩ := List.mem_map.mp hx
      exact hu.wf r (hwf' r hr)
    rw [normalizeSeq_encodeRunes uc hu false _ hwfm]
    simp only [Bool.false_eq_true, if_false]
    have hfil : ((rs.filter (fun r => !isGoSpace r)).map uc).filter (fun r => !isGoSpace r) =
        (rs.filter (fun r => !isGoSpace r)).map uc := by
      rw [List.filter_eq_self]
      intro a ha
      obtain ⟨r, hr, rfl⟩ := List.mem_map.mp ha
      simpa using hu.nospace r (hns' r hr)
    rw [hfil, List.map_map]
    congr 1
    exact List.map_congr_left fun r _ => hu.idem r
  · simp only [if_true]
    rw [normalizeSeq_encodeRunes uc hu true _ hwf']
    simp only [if_true]
    congr 1
    rw [List.filter_eq_self]
    intro a ha
    simpa using hns' a ha

/-- C8 (witness): idempotence at the well-formed stream `A`, space,
`a`, no-break space (U+00A0). -/
theorem C8_normalize_idempotent_witness :
    normalizeSeq ucModel false
        (normalizeSeq ucModel false (encodeRunes [0x41, 0x20, 0x61, 0xA0])) =
      normalizeSeq ucModel false (encodeRunes [0x41, 0x20, 0x61, 0xA0]) :=
  C8_normalize_idempotent ucModel ucModel_goUpper false [0x41, 0x20, 0x61, 0xA0] (by decide)

/-! ## Claim C2 -/

/-- C2: for every record, the digest list has exactly one entry per
configured algorithm, in configured order; the composed header is the
digests joined by single semicolons, followed by a semicolon and the
record's identifier, prefixed by the resolved source name plus a
semicolon exactly when the file-name field is included; splitting the
digest field on `;` recovers exactly the configured digests. -/
theorem C2_header_composition (P : HashPrims) (hP : HashPrimsOk P) (uc : Nat → Nat)
    (cfg : Config) (resolvedName : List Char) (noFN : Bool) (r : Record)
    (ds : List (List Char))
    (hds : ds = hashedSeqsOf P cfg.hashTypes (normalizeSeq uc cfg.caseSensitive r.seq))
    (hne : cfg.hashTypes ≠ []) :
    ds.length = cfg.hashTypes.length ∧
    processRecord P uc cfg resolvedName noFN r =
      emitRecord cfg.headersOnly
        (composeHeader resolvedName noFN (List.intercalate ";".data ds) r.name)
        (normalizeSeq uc cfg.caseSensitive r.seq) ∧
    composeHeader resolvedName true (List.intercalate ";".data ds) r.name =
      List.intercalate ";".data ds ++ ";".data ++ r.name ∧
    composeHeader resolvedName false (List.intercalate ";".data ds) r.name =
      resolvedName ++ ";".data ++ (List.intercalate ";".data ds ++ ";".data ++ r.name) ∧
    (List.intercalate ";".data ds).splitOn ';' = ds := by
  subst hds
  refine ⟨?_, rfl, ?_, ?_, ?_⟩
  · exact List.length_map _ _
  · simp [composeHeader]
  · simp [composeHeader, List.append_assoc]
  · have hsep : (";".data : List Char) = [';'] := rfl
    rw [hsep]
    refine List.splitOn_intercalate _ ';' ?_ ?_
    · intro l hl
      obtain ⟨ht, _, rfl⟩ := List.mem_map.mp hl
      exact getHashFunc_no_semi P hP ht _
    · simpa [hashedSeqsOf] using hne

/-- C2 (witness): the composition facts at a concrete single-hash
configuration and record. -/
theorem C2_header_composition_witness :
    (hashedSeqsOf prims0 fileConfig.hashTypes
        (normalizeSeq ucModel fileConfig.caseSensitive recA.seq)).length =
      fileConfig.hashTypes.length ∧
    processRecord prims0 ucModel fileConfig "test.fasta".data true recA =
      emitRecord fileConfig.headersOnly
        (composeHeader "test.fasta".data true
          (List.intercalate ";".data
            (hashedSeqsOf prims0 fileConfig.hashTypes
              (normalizeSeq ucModel fileConfig.caseSensitive recA.seq)))
          recA.name)
        (normalizeSeq ucModel fileConfig.caseSensitive recA.seq) ∧
    composeHeader "test.fasta".data true
        (List.intercalate ";".data
          (hashedSeqsOf prims0 fileConfig.hashTypes
            (normalizeSeq ucModel fileConfig.caseSensitive recA.seq))) recA.name =
      List.intercalate ";".data
          (hashedSeqsOf prims0 fileConfig.hashTypes
            (normalizeSeq ucModel fileConfig.caseSensitive recA.seq)) ++
        ";".data ++ recA.name ∧
    composeHeader "test.fasta".data false
        (List.intercalate ";".data
          (hashedSeqsOf prims0 fileConfig.hashTypes
            (normalizeSeq ucModel fileConfig.caseSensitive recA.seq))) recA.name =
      "test.fasta".data ++ ";".data ++
        (List.intercalate ";".data
          (hashedSeqsOf prims0 fileConfig.hashTypes
            (normalizeSeq ucModel fileConfig.caseSensitive recA.seq)) ++
          ";".data ++ recA.name) ∧
    (List.intercalate ";".data
        (hashedSeqsOf prims0 fileConfig.hashTypes
          (normalizeSeq ucModel fileConfig.caseSensitive recA.seq))).splitOn ';' =
      hashedSeqsOf prims0 fileConfig.hashTypes
        (normalizeSeq ucModel fileConfig.caseSensitive recA.seq) :=
  C2_header_composition prims0 prims0_ok ucModel fileConfig "test.fasta".data true recA
    _ rfl (by simp [fileConfig])

/-! ## Claim C3 -/

/-- C3: when a record's sequence normalizes to zero bytes, every
configured hash closure returns the empty string and logs the warning —
no placeholder digest — and the loop still processes the record and
continues: the emitted output is this record's line followed by the rest
of the loop's output, and the loop's final status is exactly the rest's
status (no error is introduced). -/
theorem C3_empty_sequence (P : HashPrims) (uc : Nat → Nat) (cfg : Config)
    (resolvedName : List Char) (noFN : Bool) (r : Record) (ht : List Char)
    (_hht : ht ∈ cfg.hashTypes)
    (rest : List (Except (List Char) Record))
    (hempty : normalizeSeq uc cfg.caseSensitive r.seq = []) :
    getHashFunc P ht (normalizeSeq uc cfg.caseSensitive r.seq) = ([], [emptyHashWarning]) ∧
    (processLoop P uc cfg resolvedName noFN (.ok r :: rest)).1 =
      processRecord P uc cfg resolvedName noFN r ++
        (processLoop P uc cfg resolvedName noFN rest).1 ∧
    (processLoop P uc cfg resolvedName noFN (.ok r :: rest)).2 =
      (processLoop P uc cfg resolvedName noFN rest).2 := by
  refine ⟨?_, rfl, rfl⟩
  rw [hempty]
  simp [getHashFunc]

/-- C3 (witness): the empty-sequence policy at a record whose sequence
is a single space. -/
theorem C3_empty_sequence_witness :
    getHashFunc prims0 "sha1".data
        (normalizeSeq ucModel fileConfig.caseSensitive
          (Record.mk "seq0".data [0x20] []).seq) = ([], [emptyHashWarning]) ∧
    (processLoop prims0 ucModel fileConfig "test.fasta".data true
        (.ok (Record.mk "seq0".data [0x20] []) :: [])).1 =
      processRecord prims0 ucModel fileConfig "test.fasta".data true
          (Record.mk "seq0".data [0x20] []) ++
        (processLoop prims0 ucModel fileConfig "test.fasta".data true []).1 ∧
    (processLoop prims0 ucModel fileConfig "test.fasta".data true
        (.ok (Record.mk "seq0".data [0x20] []) :: [])).2 =
      (processLoop prims0 ucModel fileConfig "test.fasta".data true []).2 :=
  C3_empty_sequence prims0 ucModel fileConfig "test.fasta".data true
    (Record.mk "seq0".data [0x20] []) "sha1".data (by simp [fileConfig]) []
    (by decide)

/-! ## Claim C4 -/

/-- The loop processes a run of successfully-read records by
concatenating their emissions and then behaves as on the remaining
stream. -/
theorem processLoop_map_ok (P : HashPrims) (uc : Nat → Nat) (cfg : Config)
    (rn : List Char) (nf : Bool) (rs : List Record)
    (tail : List (Except (List Char) Record)) :
    processLoop P uc cfg rn nf (rs.map .ok ++ tail) =
      ((rs.map (processRecord P uc cfg rn nf)).flatten ++
          (processLoop P uc cfg rn nf tail).1,
        (processLoop P uc cfg rn nf tail).2) := by
  induction rs with
  | nil => simp [processLoop]
  | cons r rs ih => simp [processLoop, ih]

/-- C4 (counterexample): on the stream `ok recA, error "bad", ok recB`,
v1.1.1's `processSequences` emits only `recA`'s line and returns the
read error: the run aborts at the first per-record parse error instead
of logging it and continuing to `recB`, and it does not exit
successfully. -/
theorem C4_counterexample :
    processSequences prims0 ucModel none fileConfig
        [.ok recA, .error "bad".data, .ok recB] =
      (processRecord prims0 ucModel fileConfig "test.fasta".data true recA,
        some ("Error reading record: bad".data)) ∧
    (processSequences prims0 ucModel none fileConfig
        [.ok recA, .error "bad".data, .ok recB]).2 ≠ none := by
  decide

/-- C4 (amended): in v1.1.1 a per-record read error that is not
end-of-stream aborts the run: the loop stops at the first such error,
returns an `Error reading record` error, and emits only the records
before it; a stream fully read to end-of-stream succeeds; and a failure
to create the reader is fatal before any record is processed. -/
theorem C4_error_aborts (P : HashPrims) (uc : Nat → Nat) (cfg : Config)
    (rs : List Record) (e re : List Char) (rest : List (Except (List Char) Record)) :
    processSequences P uc none cfg (rs.map .ok ++ .error e :: rest) =
      ((rs.map (processRecord P uc cfg (resolveName cfg).1 (resolveName cfg).2)).flatten,
        some ("Error reading record: ".data ++ e)) ∧
    processSequences P uc none cfg (rs.map .ok) =
      ((rs.map (processRecord P uc cfg (resolveName cfg).1 (resolveName cfg).2)).flatten,
        none) ∧
    processSequences P uc (some re) cfg (rs.map .ok) =
      ([], some ("Failed to create reader: ".data ++ re)) := by
  refine ⟨?_, ?_, rfl⟩
  · unfold processSequences
    rw [processLoop_map_ok]
    simp [processLoop]
  · unfold processSequences
    have h := processLoop_map_ok P uc cfg (resolveName cfg).1 (resolveName cfg).2 rs []
    rw [List.append_nil] at h
    rw [h]
    simp [processLoop]

/-! ## Claim C5 -/

/-- C5: evaluating the v1.1.1 pipeline at the FASTQ input of
`TestProcessFASTQSequences` (record `seq1`, sequence `ACTG`, quality
`DFGH`, `headersOnly = false`): the emitted record is FASTA-shaped — a
leading `>` marker, the header line and the sequence line only (two
newlines; no `+` separator line, no quality line) — and the record's
quality bytes have no influence whatsoever on the output.  The test and
the claim instead expect `@`-marked output with the `+` separator and
the original quality line. -/
theorem C5_fastq_emission :
    processSequences prims0 ucModel none fastqConfig [.ok fastqRecord] =
      (">test.fastq;0000000000000000000000000000000000000000;seq1\nACTG\n".data, none) ∧
    (processSequences prims0 ucModel none fastqConfig [.ok fastqRecord]).1.head? =
      some '>' ∧
    (processSequences prims0 ucModel none fastqConfig [.ok fastqRecord]).1.count '\n' = 2 ∧
    processSequences prims0 ucModel none fastqConfig [.ok fastqRecord] =
      processSequences prims0 ucModel none fastqConfig
        [.ok (Record.mk fastqRecord.name fastqRecord.seq [])] := by
  decide

/-! ## Claim C6 -/

theorem takeWhile_no_slash_append (l1 l2 : List Char) (h : '/' ∉ l1) :
    (l1 ++ '/' :: l2).takeWhile (· ≠ '/') = l1 := by
  induction l1 with
  | nil => simp [List.takeWhile]
  | cons a as ih =>
    have ha : a ≠ '/' := fun he => h (by simp [he])
    simp only [List.cons_append, List.takeWhile_cons]
    rw [if_pos (by simp [ha]), ih fun hm => h (by simp [hm])]

/-- `filepath.Base` keeps exactly the part after the last slash. -/
theorem filepathBase_append (d g : List Char) (hg : g ≠ []) (hsl : '/' ∉ g) :
    filepathBase (d ++ '/' :: g) = g := by
  unfold filepathBase
  rw [if_neg (by simp)]
  obtain ⟨a, as, hga⟩ : ∃ a as, g.reverse = a :: as := by
    cases hgr : g.reverse with
    | nil => exact absurd (by simpa using congrArg List.reverse hgr) hg
    | cons a as => exact ⟨a, as, rfl⟩
  have ha : a ≠ '/' := by
    intro he
    apply hsl
    rw [← List.mem_reverse, hga, he]
    simp
  have hrev : (d ++ '/' :: g).reverse = a :: (as ++ '/' :: d.reverse) := by
    simp [hga]
  have hdw : (a :: (as ++ '/' :: d.reverse)).dropWhile (· = '/') =
      a :: (as ++ '/' :: d.reverse) := by
    simp [List.dropWhile_cons, ha]
  rw [hrev, hdw]
  rw [if_neg (by simp)]
  rw [← List.cons_append]
  rw [takeWhile_no_slash_append (a :: as) d.reverse
    (by rw [← hga, List.mem_reverse]; exact hsl)]
  rw [← hga, List.reverse_reverse]

/-- C6 (counterexample): with input designator `-` (stdin), no name
override, and the file-name field not omitted by the user, the current
seqhasher emits a header with *no* source-name field at all — not the
literal `stdin` the claim prescribes — because `processSequences`
forces `noFileName` for stdin. -/
theorem C6_counterexample :
    processSequences prims0 ucModel none stdinConfig [.ok recA] =
      ("0000000000000000000000000000000000000000;seq1\n".data, none) ∧
    stdinConfig.noFileName = false ∧
    (resolveName stdinConfig).2 = true ∧
    (processSequences prims0 ucModel none stdinConfig [.ok recA]).1.take 6 ≠
      "stdin;".data := by
  decide

/-- C6 (amended): the claimed three-case rule (override verbatim, else
literal `stdin` for `-`, else base file name) is the rule of the legacy
`rechimizer` tool, where the name is resolved once in `main`; the current
seqhasher's `processSequences` resolves once per run as: override
verbatim when set; otherwise for stdin it omits the source-name field
from headers entirely (forcing `noFileName`); otherwise it uses the
configured input file name.  `filepath.Base` indeed strips the
directory components. -/
theorem C6_source_name_amended (n f d g : List Char) (cfgA cfgB : Config)
    (hn : n ≠ []) (hf : f ≠ "-".data) (hA : cfgA.nameOverride ≠ [])
    (hB1 : cfgB.nameOverride = []) (hB2 : cfgB.inputFileName = "-".data)
    (hg : g ≠ []) (hsl : '/' ∉ g) :
    rechimizerSourceName n f = n ∧
    rechimizerSourceName n "-".data = n ∧
    rechimizerSourceName [] "-".data = "stdin".data ∧
    rechimizerSourceName [] f = filepathBase f ∧
    filepathBase (d ++ '/' :: g) = g ∧
    resolveName cfgA = (cfgA.nameOverride, cfgA.noFileName) ∧
    (resolveName cfgB).2 = true ∧
    (resolveName cfgB).1 = cfgB.inputFileName := by
  refine ⟨?_, ?_, rfl, ?_, filepathBase_append d g hg hsl, ?_, ?_, ?_⟩
  · unfold rechimizerSourceName
    rw [if_neg hf, if_pos hn]
  · unfold rechimizerSourceName
    rw [if_pos rfl, if_neg hn]
  · unfold rechimizerSourceName
    rw [if_neg hf, if_neg (by simp)]
  · unfold resolveName
    rw [if_pos hA]
  · unfold resolveName
    rw [if_neg (by simp [hB1]), if_pos hB2]
  · unfold resolveName
    rw [if_neg (by simp [hB1]), if_pos hB2]

/-- C6 (witness): the amended resolution rules at concrete values. -/
theorem C6_source_name_amended_witness :
    rechimizerSourceName "Sample".data "in/a.fa".data = "Sample".data ∧
    rechimizerSourceName "Sample".data "-".data = "Sample".data ∧
    rechimizerSourceName [] "-".data = "stdin".data ∧
    rechimizerSourceName [] "in/a.fa".data = filepathBase "in/a.fa".data ∧
    filepathBase ("in".data ++ '/' :: "a.fa".data) = "a.fa".data ∧
    resolveName { stdinConfig with nameOverride := "x".data } =
      (({ stdinConfig with nameOverride := "x".data } : Config).nameOverride,
        ({ stdinConfig with nameOverride := "x".data } : Config).noFileName) ∧
    (resolveName stdinConfig).2 = true ∧
    (resolveName stdinConfig).1 = stdinConfig.inputFileName :=
  C6_source_name_amended "Sample".data "in/a.fa".data "in".data "a.fa".data
    { stdinConfig with nameOverride := "x".data } stdinConfig
    (by decide) (by decide) (by decide) (by decide) (by decide) (by decide) (by decide)

/-! ## Claim C7 -/

/-- C7: the supported names are exactly the closed eight-element set;
a hash string whose comma-split entries are all (after trimming) in the
set parses to exactly those entries; an entry outside the set makes
validation fail before any record is processed: `parseFlags` returns the
error for the first offending entry, the run emits nothing, and the
message reports the offending name and enumerates the full supported
list. -/
theorem C7_hash_validation (s1 s2 : List Char) (ts : List (List Char)) (ht ht0 : List Char)
    (P : HashPrims) (uc : Nat → Nat) (cfg : Config)
    (readerErr : Option (List Char)) (stream : List (Except (List Char) Record))
    (hok : parseHashTypes s1 = .ok ts)
    (hmem : ht ∈ s2.splitOn ',') (hbad : isValidHashType (trimSpace ht) = false)
    (hfind : (s2.splitOn ',').find? (fun t => !isValidHashType (trimSpace t)) = some ht0) :
    supportedHashTypes = ["sha1".data, "sha3".data, "md5".data, "xxhash".data,
      "cityhash".data, "murmur3".data, "nthash".data, "blake3".data] ∧
    ts = s1.splitOn ',' ∧
    ts.all (fun t => isValidHashType (trimSpace t)) = true ∧
    (s2.splitOn ',').find? (fun t => !isValidHashType (trimSpace t)) ≠ none ∧
    ht0 ∈ s2.splitOn ',' ∧
    isValidHashType (trimSpace ht0) = false ∧
    parseHashTypes s2 = .error (invalidHashMessage ht0) ∧
    runPipeline P uc cfg s2 readerErr stream = ([], some (invalidHashMessage ht0)) ∧
    invalidHashMessage ht0 = "Invalid hash type: ".data ++ ht0 ++
      ". Supported types are: sha1, sha3, md5, xxhash, cityhash, murmur3, nthash, blake3".data
    := by
  have herr : parseHashTypes s2 = .error (invalidHashMessage ht0) := by
    unfold parseHashTypes
    rw [hfind]
  have hokfacts : ts = s1.splitOn ',' ∧
      ts.all (fun t => isValidHashType (trimSpace t)) = true := by
    unfold parseHashTypes at hok
    cases hf : (s1.splitOn ',').find? (fun t => !isValidHashType (trimSpace t)) with
    | some t => rw [hf] at hok; exact absurd hok (by simp)
    | none =>
      rw [hf] at hok
      have hts : ts = s1.splitOn ',' := by
        have := hok
        simp at this
        exact this.symm
      subst hts
      refine ⟨rfl, List.all_eq_true.mpr ?_⟩
      intro t htm
      have := List.find?_eq_none.mp hf t htm
      simpa using this
  have hnn : (s2.splitOn ',').find? (fun t => !isValidHashType (trimSpace t)) ≠ none := by
    intro hn
    have := List.find?_eq_none.mp hn ht hmem
    simp [hbad] at this
  refine ⟨rfl, hokfacts.1, hokfacts.2, hnn, List.mem_of_find?_eq_some hfind,
    ?_, herr, ?_, ?_⟩
  · have := List.find?_some hfind
    simpa using this
  · unfold runPipeline
    rw [herr]
  · unfold invalidHashMessage
    rw [List.append_assoc ("Invalid hash type: ".data ++ ht0)]
    congr 1

/-- C7 (witness): validation at the strings `sha1,md5` (accepted as-is)
and `sha1,bogus` (rejected on `bogus` with the enumerating message). -/
theorem C7_hash_validation_witness :
    supportedHashTypes = ["sha1".data, "sha3".data, "md5".data, "xxhash".data,
      "cityhash".data, "murmur3".data, "nthash".data, "blake3".data] ∧
    ["sha1".data, "md5".data] = "sha1,md5".data.splitOn ',' ∧
    (["sha1".data, "md5".data].all fun t => isValidHashType (trimSpace t)) = true ∧
    ("sha1,bogus".data.splitOn ',').find? (fun t => !isValidHashType (trimSpace t)) ≠
      none ∧
    "bogus".data ∈ "sha1,bogus".data.splitOn ',' ∧
    isValidHashType (trimSpace "bogus".data) = false ∧
    parseHashTypes "sha1,bogus".data = .error (invalidHashMessage "bogus".data) ∧
    runPipeline prims0 ucModel fileConfig "sha1,bogus".data none [] =
      ([], some (invalidHashMessage "bogus".data)) ∧
    invalidHashMessage "bogus".data = "Invalid hash type: ".data ++ "bogus".data ++
      ". Supported types are: sha1, sha3, md5, xxhash, cityhash, murmur3, nthash, blake3".data
    :=
  C7_hash_validation "sha1,md5".data "sha1,bogus".data ["sha1".data, "md5".data]
    "bogus".data "bogus".data prims0 ucModel fileConfig none []
    (by rfl) (by decide) (by decide) (by rfl)

/-! ## Claim C9 -/

/-- C9: on every non-empty input, each algorithm's digest is a string of
lowercase hexadecimal characters of the documented fixed width (sha1 40,
sha3 128, md5 32, xxhash 16, cityhash 32, murmur3 32, nthash 16,
blake3 64); the cityhash digest renders the high 64-bit half first, the
murmur3 digest concatenates the two halves in the library's order, and
the nthash digest is a single whole-sequence hash with the k-mer window
equal to the full input length in forward (non-canonical) orientation. -/
theorem C9_digest_formats (P : HashPrims) (hP : HashPrimsOk P) (data : List Nat)
    (hne : data ≠ []) :
    (getHashFunc P "sha1".data data).1.length = 40 ∧
    (getHashFunc P "sha3".data data).1.length = 128 ∧
    (getHashFunc P "md5".data data).1.length = 32 ∧
    (getHashFunc P "xxhash".data data).1.length = 16 ∧
    (getHashFunc P "cityhash".data data).1.length = 32 ∧
    (getHashFunc P "murmur3".data data).1.length = 32 ∧
    (getHashFunc P "nthash".data data).1.length = 16 ∧
    (getHashFunc P "blake3".data data).1.length = 64 ∧
    (getHashFunc P "cityhash".data data).1 =
      hexPad16 (P.cityHash128High data) ++ hexPad16 (P.cityHash128Low data) ∧
    (getHashFunc P "murmur3".data data).1 =
      hexPad16 (P.murmur3Sum128Fst data) ++ hexPad16 (P.murmur3Sum128Snd data) ∧
    (getHashFunc P "nthash".data data).1 =
      hexPad16 (P.nthashNext data data.length false) ∧
    (getHashFunc P "sha1".data data).1.all lowercaseHexChar = true ∧
    (getHashFunc P "sha3".data data).1.all lowercaseHexChar = true ∧
    (getHashFunc P "md5".data data).1.all lowercaseHexChar = true ∧
    (getHashFunc P "xxhash".data data).1.all lowercaseHexChar = true ∧
    (getHashFunc P "cityhash".data data).1.all lowercaseHexChar = true ∧
    (getHashFunc P "murmur3".data data).1.all lowercaseHexChar = true ∧
    (getHashFunc P "nthash".data data).1.all lowercaseHexChar = true ∧
    (getHashFunc P "blake3".data data).1.all lowercaseHexChar = true := by
  have hlen : ¬data.length = 0 := fun h => hne (List.eq_nil_of_length_eq_zero h)
  have hsha1 : getHashFunc P "sha1".data data = (hexEncodeBytes (P.sha1Sum data), []) := by
    unfold getHashFunc
    rw [if_neg hlen, if_pos rfl]
  have hsha3 : getHashFunc P "sha3".data data = (hexEncodeBytes (P.sha3Sum512 data), []) := by
    unfold getHashFunc
    rw [if_neg hlen, if_neg (by decide), if_pos rfl]
  have hmd5 : getHashFunc P "md5".data data = (hexEncodeBytes (P.md5Sum data), []) := by
    unfold getHashFunc
    rw [if_neg hlen, if_neg (by decide), if_neg (by decide), if_pos rfl]
  have hxx : getHashFunc P "xxhash".data data = (hexPad16 (P.xxhashSum64 data), []) := by
    unfold getHashFunc
    rw [if_neg hlen, if_neg (by decide), if_neg (by decide), if_neg (by decide), if_pos rfl]
  have hcity : getHashFunc P "cityhash".data data =
      (hexPad16 (P.cityHash128High data) ++ hexPad16 (P.cityHash128Low data), []) := by
    unfold getHashFunc
    rw [if_neg hlen, if_neg (by decide), if_neg (by decide), if_neg (by decide),
      if_neg (by decide), if_pos rfl]
  have hmur : getHashFunc P "murmur3".data data =
      (hexPad16 (P.murmur3Sum128Fst data) ++ hexPad16 (P.murmur3Sum128Snd data), []) := by
    unfold getHashFunc
    rw [if_neg hlen, if_neg (by decide), if_neg (by decide), if_neg (by decide),
      if_neg (by decide), if_neg (by decide), if_pos rfl]
  have hnt : getHashFunc P "nthash".data data =
      (hexPad16 (P.nthashNext data data.length false), []) := by
    unfold getHashFunc
    rw [if_neg hlen, if_neg (by decide), if_neg (by decide), if_neg (by decide),
      if_neg (by decide), if_neg (by decide), if_neg (by decide), if_pos rfl,
      hP.nthash_err]
    rw [if_neg (by simp)]
  have hbl : getHashFunc P "blake3".data data =
      (hexEncodeBytes (P.blake3Sum256 data), []) := by
    unfold getHashFunc
    rw [if_neg hlen, if_neg (by decide), if_neg (by decide), if_neg (by decide),
      if_neg (by decide), if_neg (by decide), if_neg (by decide), if_neg (by decide),
      if_pos rfl]
  have hall : ∀ ht : List Char, (getHashFunc P ht data).1.all lowercaseHexChar = true :=
    fun ht => List.all_eq_true.mpr fun c hc => getHashFunc_chars P hP ht data c hc
  refine ⟨?_, ?_, ?_, ?_, ?_, ?_, ?_, ?_, by rw [hcity], by rw [hmur], by rw [hnt],
    hall _, hall _, hall _, hall _, hall _, hall _, hall _, hall _⟩
  · rw [hsha1]
    simp [hexEncodeBytes_length, hP.sha1_len]
  · rw [hsha3]
    simp [hexEncodeBytes_length, hP.sha3_len]
  · rw [hmd5]
    simp [hexEncodeBytes_length, hP.md5_len]
  · rw [hxx]
    simp [hexPad16_length]
  · rw [hcity]
    simp [hexPad16_length]
  · rw [hmur]
    simp [hexPad16_length]
  · rw [hnt]
    simp [hexPad16_length]
  · rw [hbl]
    simp [hexEncodeBytes_length, hP.blake3_len]

/-- C9 (witness): the format facts at the one-byte input `A` with the
trivial primitives. -/
theorem C9_digest_formats_witness :
    (getHashFunc prims0 "sha1".data [0x41]).1.length = 40 ∧
    (getHashFunc prims0 "sha3".data [0x41]).1.length = 128 ∧
    (getHashFunc prims0 "md5".data [0x41]).1.length = 32 ∧
    (getHashFunc prims0 "xxhash".data [0x41]).1.length = 16 ∧
    (getHashFunc prims0 "cityhash".data [0x41]).1.length = 32 ∧
    (getHashFunc prims0 "murmur3".data [0x41]).1.length = 32 ∧
    (getHashFunc prims0 "nthash".data [0x41]).1.length = 16 ∧
    (getHashFunc prims0 "blake3".data [0x41]).1.length = 64 ∧
    (getHashFunc prims0 "cityhash".data [0x41]).1 =
      hexPad16 (prims0.cityHash128High [0x41]) ++ hexPad16 (prims0.cityHash128Low [0x41]) ∧
    (getHashFunc prims0 "murmur3".data [0x41]).1 =
      hexPad16 (prims0.murmur3Sum128Fst [0x41]) ++
        hexPad16 (prims0.murmur3Sum128Snd [0x41]) ∧
    (getHashFunc prims0 "nthash".data [0x41]).1 =
      hexPad16 (prims0.nthashNext [0x41] [0x41].length false) ∧
    (getHashFunc prims0 "sha1".data [0x41]).1.all lowercaseHexChar = true ∧
    (getHashFunc prims0 "sha3".data [0x41]).1.all lowercaseHexChar = true ∧
    (getHashFunc prims0 "md5".data [0x41]).1.all lowercaseHexChar = true ∧
    (getHashFunc prims0 "xxhash".data [0x41]).1.all lowercaseHexChar = true ∧
    (getHashFunc prims0 "cityhash".data [0x41]).1.all lowercaseHexChar = true ∧
    (getHashFunc prims0 "murmur3".data [0x41]).1.all lowercaseHexChar = true ∧
    (getHashFunc prims0 "nthash".data [0x41]).1.all lowercaseHexChar = true ∧
    (getHashFunc prims0 "blake3".data [0x41]).1.all lowercaseHexChar = true :=
  C9_digest_formats prims0 prims0_ok [0x41] (by decide)

/-! ## Claim C10 -/

/-- C10: the hash dispatch is total, with a SHA-1 default branch for
every unrecognised name; in particular `--hash "sha1, md5"` passes
validation (the check trims) but stores the entries untrimmed, and the
stored `" md5"` silently dispatches to the default branch, producing the
40-character SHA-1 digest rather than the 32-character md5 digest or an
error. -/
theorem C10_default_dispatch (P : HashPrims) (hP : HashPrimsOk P) (data : List Nat)
    (ht : List Char) (hns : ht ∉ supportedHashTypes) (hne : data ≠ []) :
    getHashFunc P ht data = getHashFunc P "sha1".data data ∧
    getHashFunc P ht data = (hexEncodeBytes (P.sha1Sum data), []) ∧
    parseHashTypes "sha1, md5".data = .ok ["sha1".data, " md5".data] ∧
    " md5".data ∉ supportedHashTypes ∧
    getHashFunc P " md5".data data = (hexEncodeBytes (P.sha1Sum data), []) ∧
    (getHashFunc P " md5".data data).1.length = 40 ∧
    (getHashFunc P "md5".data data).1.length = 32 ∧
    (getHashFunc P " md5".data data).1 ≠ (getHashFunc P "md5".data data).1 := by
  have hlen : ¬data.length = 0 := fun h => hne (List.eq_nil_of_length_eq_zero h)
  have hdefault : ∀ ht' : List Char, ht' ∉ supportedHashTypes →
      getHashFunc P ht' data = (hexEncodeBytes (P.sha1Sum data), []) := by
    intro ht' hns'
    have ne1 : ht' ≠ "sha1".data :=
      fun he => hns' (he ▸ (by decide : ("sha1".data : List Char) ∈ supportedHashTypes))
    have ne2 : ht' ≠ "sha3".data :=
      fun he => hns' (he ▸ (by decide : ("sha3".data : List Char) ∈ supportedHashTypes))
    have ne3 : ht' ≠ "md5".data :=
      fun he => hns' (he ▸ (by decide : ("md5".data : List Char) ∈ supportedHashTypes))
    have ne4 : ht' ≠ "xxhash".data :=
      fun he => hns' (he ▸ (by decide : ("xxhash".data : List Char) ∈ supportedHashTypes))
    have ne5 : ht' ≠ "cityhash".data :=
      fun he => hns' (he ▸ (by decide : ("cityhash".data : List Char) ∈ supportedHashTypes))
    have ne6 : ht' ≠ "murmur3".data :=
      fun he => hns' (he ▸ (by decide : ("murmur3".data : List Char) ∈ supportedHashTypes))
    have ne7 : ht' ≠ "nthash".data :=
      fun he => hns' (he ▸ (by decide : ("nthash".data : List Char) ∈ supportedHashTypes))
    have ne8 : ht' ≠ "blake3".data :=
      fun he => hns' (he ▸ (by decide : ("blake3".data : List Char) ∈ supportedHashTypes))
    unfold getHashFunc
    rw [if_neg hlen, if_neg ne1, if_neg ne2, if_neg ne3, if_neg ne4, if_neg ne5,
      if_neg ne6, if_neg ne7, if_neg ne8]
  have hsha1 : getHashFunc P "sha1".data data = (hexEncodeBytes (P.sha1Sum data), []) := by
    unfold getHashFunc
    rw [if_neg hlen, if_pos rfl]
  have hmd5 : getHashFunc P "md5".data data = (hexEncodeBytes (P.md5Sum data), []) := by
    unfold getHashFunc
    rw [if_neg hlen, if_neg (by decide), if_neg (by decide), if_pos rfl]
  have hsp : getHashFunc P " md5".data data = (hexEncodeBytes (P.sha1Sum data), []) :=
    hdefault " md5".data (by decide)
  have hl40 : (getHashFunc P " md5".data data).1.length = 40 := by
    rw [hsp]
    simp [hexEncodeBytes_length, hP.sha1_len]
  have hl32 : (getHashFunc P "md5".data data).1.length = 32 := by
    rw [hmd5]
    simp [hexEncodeBytes_length, hP.md5_len]
  refine ⟨by rw [hdefault ht hns, hsha1], hdefault ht hns, by rfl, by decide, hsp,
    hl40, hl32, ?_⟩
  intro he
  rw [he] at hl40
  omega

/-- C10 (witness): the untrimmed-storage scenario at the input `A` and
the unsupported name `bogus`. -/
theorem C10_default_dispatch_witness :
    getHashFunc prims0 "bogus".data [0x41] = getHashFunc prims0 "sha1".data [0x41] ∧
    getHashFunc prims0 "bogus".data [0x41] =
      (hexEncodeBytes (prims0.sha1Sum [0x41]), []) ∧
    parseHashTypes "sha1, md5".data = .ok ["sha1".data, " md5".data] ∧
    " md5".data ∉ supportedHashTypes ∧
    getHashFunc prims0 " md5".data [0x41] =
      (hexEncodeBytes (prims0.sha1Sum [0x41]), []) ∧
    (getHashFunc prims0 " md5".data [0x41]).1.length = 40 ∧
    (getHashFunc prims0 "md5".data [0x41]).1.length = 32 ∧
    (getHashFunc prims0 " md5".data [0x41]).1 ≠ (getHashFunc prims0 "md5".data [0x41]).1 :=
  C10_default_dispatch prims0 prims0_ok [0x41] "bogus".data (by decide) (by decide)

end Seqhasher
